import Mathlib

/-
Shallow embedding of src/pipeline/models/training.py.

Per-batch and per-epoch losses are modelled as rationals. The Python value
float("inf"), the initial value of best_val_loss, is modelled as the value
none of Option Rat, so a finite loss q is modelled as some q and the strict
comparison val_loss < best_val_loss becomes the function lt_best below.
Division by zero (Python ZeroDivisionError) is modelled with Except.
-/

namespace MLEnergy

/-- Mean loss over a run of batches, as computed by total_loss divided by the
number of batches at the end of the train and validate functions; an empty
batch sequence raises ZeroDivisionError, modelled as an error value. -/
def meanLoss (losses : List ℚ) : Except String ℚ :=
  if losses.length = 0 then Except.error "ZeroDivisionError"
  else Except.ok ((losses.foldl (fun a b => a + b) 0) / (losses.length : ℚ))

/-- A model as seen by the training loop: its trainable parameters together
with the train or eval mode flag toggled by model.train() and model.eval(). -/
structure Model (α : Type) where
  params : α
  trainingMode : Bool
deriving DecidableEq

/-- The per-batch losses recorded by the train function: each batch loss is
computed on the current parameters, then the optimizer update produces the
parameters and optimizer state used for the next batch. -/
def batchLosses {α γ β : Type} (upd : α → γ → β → α × γ) (lossOf : α → β → ℚ) :
    α → γ → List β → List ℚ
  | _, _, [] => []
  | p, o, b :: bs =>
      lossOf p b :: batchLosses upd lossOf (upd p o b).1 (upd p o b).2 bs

/-- The batch loop body of the train function: it threads parameters and
optimizer state through the batches while accumulating total_loss. -/
def trainGo {α γ β : Type} (upd : α → γ → β → α × γ) (lossOf : α → β → ℚ) :
    α → γ → ℚ → List β → α × γ × ℚ
  | p, o, tot, [] => (p, o, tot)
  | p, o, tot, b :: bs =>
      trainGo upd lossOf (upd p o b).1 (upd p o b).2 (tot + lossOf p b) bs

/-- The train function: switches the model to training mode, runs the batch
loop, and returns the updated model, the updated optimizer state and
total_loss divided by the number of batches. -/
def train {α γ β : Type} (upd : α → γ → β → α × γ) (lossOf : α → β → ℚ)
    (m : Model α) (opt : γ) (batches : List β) : Model α × γ × Except String ℚ :=
  let r := trainGo upd lossOf m.params opt 0 batches
  (⟨r.1, true⟩, r.2.1,
    if batches.length = 0 then Except.error "ZeroDivisionError"
    else Except.ok (r.2.2 / (batches.length : ℚ)))

/-- The validate function: switches the model to eval mode, computes the loss
of each batch on the unchanged parameters under no_grad, and returns the mean
loss togeter with the model, whose parameters it never writes. -/
def validate {α β : Type} (lossOf : α → β → ℚ) (m : Model α) (batches : List β) :
    Model α × Except String ℚ :=
  let m' : Model α := ⟨m.params, false⟩
  (m', meanLoss (batches.map (lossOf m'.params)))

/-- The call site of validate inside train_loop: the optimizer is not passed
to validate, so threading it through the call leaves it untouched. -/
def validateWithOpt {α β γ : Type} (lossOf : α → β → ℚ) (m : Model α) (opt : γ)
    (batches : List β) : Model α × γ × Except String ℚ :=
  let r := validate lossOf m batches
  (r.1, opt, r.2)

/-- Events observable during one epoch of train_loop. -/
inductive Ev where
  | trainBatch
  | schedulerStep
  | valBatch
  | readLR
deriving DecidableEq

/-- Events emitted by one call of the train function: the batch loop followed
by the single scheduler.step() call at the end of the function body. -/
def trainEvents (nTrain : ℕ) : List Ev :=
  List.replicate nTrain Ev.trainBatch ++ [Ev.schedulerStep]

/-- Events emitted by one call of the validate function. -/
def validateEvents (nVal : ℕ) : List Ev :=
  List.replicate nVal Ev.valBatch

/-- Events of one epoch of train_loop, in source order: the call to train,
then the call to validate, then the read of the learning rate from
optimizer.param_groups. -/
def epochEvents (nTrain nVal : ℕ) : List Ev :=
  trainEvents nTrain ++ validateEvents nVal ++ [Ev.readLR]

/-- Modelled from the spec wording of the per-epoch step order, which places
the scheduler advance last: trainer, then validator, then the learning-rate
read, then the scheduler step. Used only to compare against epochEvents. -/
def claimedEpochEvents (nTrain nVal : ℕ) : List Ev :=
  List.replicate nTrain Ev.trainBatch ++ List.replicate nVal Ev.valBatch
    ++ [Ev.readLR, Ev.schedulerStep]

/-- A row of the input dataframe: a payload plus the boolean membership
columns used to partition rows into the train, val and test sets. -/
structure Row (α : Type) where
  payload : α
  train : Bool
  val : Bool
  test : Bool
deriving DecidableEq

/-- The dataframe split at the top of train_loop, returning the pair of the
training dataframe and the validation dataframe. -/
def splitTrainVal {α : Type} (merge_train_val : Bool) (df : List (Row α)) :
    List (Row α) × List (Row α) :=
  if merge_train_val then
    (df.filter (fun r => r.train || r.val), df.filter (fun r => r.test))
  else
    (df.filter (fun r => r.train), df.filter (fun r => r.val))

/-- The comparison val_loss < best_val_loss, where best_val_loss may still be
the initial float("inf"), modelled as none. -/
def lt_best (v : ℚ) : Option ℚ → Bool
  | none => true
  | some b => decide (v < b)

/-- What one executed epoch of train_loop leaves behind: the validation loss
of the epoch, whether the checkpoint file was written, best_val_loss and the
patience counter after the epoch, the loss of the model on disk after the
epoch (none while no checkpoint exists), whether wandb.log was called, and
whether this epoch triggered the early-stopping break. -/
structure EpochTrace where
  valLoss : ℚ
  written : Bool
  bestAfter : Option ℚ
  patienceAfter : ℕ
  diskAfter : Option ℚ
  logged : Bool
  earlyStopped : Bool
deriving DecidableEq

/-- The epoch loop of train_loop, one step per remaining validation loss,
carrying best_val_loss, the patience counter and the checkpoint on disk.
Returns the final best_val_loss and the trace of executed epochs. -/
def trainLoopGo (patience : ℕ) (log_wandb : Bool) :
    List ℚ → Option ℚ → ℕ → Option ℚ → Option ℚ × List EpochTrace
  | [], best, _, _ => (best, [])
  | v :: rest, best, pc, disk =>
      let improved : Bool := lt_best v best
      let best' : Option ℚ := if improved then some v else best
      let disk' : Option ℚ := if improved then some v else disk
      let pc' : ℕ := if improved then 0 else pc + 1
      let stop : Bool := decide (patience ≤ pc')
      let logged : Bool := if stop then false else log_wandb
      let tr : EpochTrace := ⟨v, improved, best', pc', disk', logged, stop⟩
      if stop then (best', [tr])
      else
        let r := trainLoopGo patience log_wandb rest best' pc' disk'
        (r.1, tr :: r.2)

/-- The epoch loop of train_loop started from its initial state:
best_val_loss is float("inf"), the patience counter is 0, no checkpoint is on
disk, and epoch number n has validation loss valLoss n. -/
def train_loop (num_epochs patience : ℕ) (log_wandb : Bool) (valLoss : ℕ → ℚ) :
    Option ℚ × List EpochTrace :=
  trainLoopGo patience log_wandb ((List.range num_epochs).map valLoss) none 0 none

/-- The value float("inf") returned when validation never ran. -/
def floatInf : Option ℚ := none

/-- Minimum of a list of losses, none for the empty list. -/
def ominQ : Option ℚ → Option ℚ → Option ℚ
  | none, b => b
  | some a, none => some a
  | some a, some b => some (min a b)

/-- The minimum validation loss of a list of epochs, none if there is none. -/
def minLoss (ls : List ℚ) : Option ℚ :=
  ls.foldr (fun v acc => ominQ (some v) acc) none

/-- The validation losses 0.5, 0.6, 0.7 of the spec scenario for epochs 0, 1
and 2, padded with 1 for the epochs the scenario never reaches. -/
def scenarioLosses : ℕ → ℚ
  | 0 => Rat.divInt 1 2
  | 1 => Rat.divInt 3 5
  | 2 => Rat.divInt 7 10
  | _ + 3 => 1

/-- The fields of an epoch trace that do not concern logging. -/
def traceCore (t : EpochTrace) : ℚ × Bool × Option ℚ × ℕ × Option ℚ × Bool :=
  (t.valLoss, t.written, t.bestAfter, t.patienceAfter, t.diskAfter, t.earlyStopped)

lemma foldl_add_eq_add_sum (t : ℚ) (ls : List ℚ) :
    ls.foldl (fun a b => a + b) t = t + ls.sum := by
  induction ls generalizing t with
  | nil => simp
  | cons a as ih => simp only [List.foldl_cons, ih, List.sum_cons]; ring

lemma meanLoss_of_ne_nil (ls : List ℚ) (h : ls ≠ []) :
    meanLoss ls = Except.ok (ls.sum / (ls.length : ℚ)) := by
  have hlen : ls.length ≠ 0 := by simpa [List.length_eq_zero] using h
  simp [meanLoss, hlen, foldl_add_eq_add_sum]

lemma batchLosses_length {α γ β : Type} (upd : α → γ → β → α × γ)
    (lossOf : α → β → ℚ) (bs : List β) :
    ∀ (p : α) (o : γ), (batchLosses upd lossOf p o bs).length = bs.length := by
  induction bs with
  | nil => intro p o; rfl
  | cons b bs ih => intro p o; simp [batchLosses, ih]

lemma trainGo_total {α γ β : Type} (upd : α → γ → β → α × γ)
    (lossOf : α → β → ℚ) (bs : List β) :
    ∀ (p : α) (o : γ) (t : ℚ),
      (trainGo upd lossOf p o t bs).2.2 = t + (batchLosses upd lossOf p o bs).sum := by
  induction bs with
  | nil => intro p o t; simp [trainGo, batchLosses]
  | cons b bs ih =>
      intro p o t
      simp only [trainGo, batchLosses, List.sum_cons, ih]
      ring

lemma train_loss_eq {α γ β : Type} (upd : α → γ → β → α × γ) (lossOf : α → β → ℚ)
    (m : Model α) (opt : γ) (bs : List β) (h : bs ≠ []) :
    (train upd lossOf m opt bs).2.2
      = Except.ok ((batchLosses upd lossOf m.params opt bs).sum / (bs.length : ℚ)) := by
  have hlen : bs.length ≠ 0 := by simpa [List.length_eq_zero] using h
  simp [train, hlen, trainGo_total]

end MLEnergy

namespace MLEnergy

/-- C4 counterexample: with one training batch and one validation batch the
event order of the code differs from the order the claim states, because the
code advances the scheduler inside the train function, before validation and
before the learning-rate read. -/
theorem scheduler_order_counterexample :
    epochEvents 1 1 ≠ claimedEpochEvents 1 1 := by decide

/-- C4 (amended): in every epoch the events are the training batch loop, then
exactly one scheduler step at the end of the train call, then the validation
batch loop, then the learning-rate read; the scheduler advances once per
epoch, decoupled from batch iteration, but before validation and the
learning-rate read rather than after them. -/
theorem scheduler_step_order (n m : ℕ) :
    epochEvents n m
      = List.replicate n Ev.trainBatch
          ++ Ev.schedulerStep :: (List.replicate m Ev.valBatch ++ [Ev.readLR]) ∧
    (epochEvents n m).count Ev.schedulerStep = 1 ∧
    (trainEvents n).count Ev.schedulerStep = 1 := by
  refine ⟨by simp [epochEvents, trainEvents, validateEvents], ?_, ?_⟩ <;>
    simp [epochEvents, trainEvents, validateEvents, List.count_append,
      List.count_replicate, List.count_singleton, List.count_cons]

/-- C6: for a non-empty sequence of batches the train function returns the
arithmetic mean, the sum of the per-batch losses divided by the number of
batches, and any list of losses that is a permutation of the per-batch losses
has the same mean. -/
theorem train_returns_mean {α γ β : Type} (upd : α → γ → β → α × γ)
    (lossOf : α → β → ℚ) (m : Model α) (opt : γ) (bs : List β) (ls : List ℚ)
    (h : bs ≠ []) :
    (train upd lossOf m opt bs).2.2
      = Except.ok ((batchLosses upd lossOf m.params opt bs).sum / (bs.length : ℚ)) ∧
    (batchLosses upd lossOf m.params opt bs).length = bs.length ∧
    (ls.Perm (batchLosses upd lossOf m.params opt bs) →
      ls.sum / (ls.length : ℚ)
        = (batchLosses upd lossOf m.params opt bs).sum / (bs.length : ℚ)) := by
  refine ⟨train_loss_eq upd lossOf m opt bs h, batchLosses_length upd lossOf bs _ _, ?_⟩
  intro hperm
  rw [hperm.sum_eq, hperm.length_eq, batchLosses_length]

/-- C6 witness at a concrete run with two batches. -/
theorem train_returns_mean_witness :
    ([3, 4] : List ℚ) ≠ [] ∧
    ((train (fun p o b => (p + b, o)) (fun p b => p * b) (⟨2, true⟩ : Model ℚ)
        (0 : ℚ) [3, 4]).2.2
      = Except.ok ((batchLosses (fun p o b => (p + b, o)) (fun p b => p * b)
          (2 : ℚ) (0 : ℚ) [3, 4]).sum / (([3, 4] : List ℚ).length : ℚ)) ∧
    (batchLosses (fun p o b => (p + b, o)) (fun p b => p * b)
        (2 : ℚ) (0 : ℚ) [3, 4]).length = ([3, 4] : List ℚ).length ∧
    (([20, 6] : List ℚ).Perm (batchLosses (fun p o b => (p + b, o))
        (fun p b => p * b) (2 : ℚ) (0 : ℚ) [3, 4]) →
      ([20, 6] : List ℚ).sum / ((([20, 6] : List ℚ).length : ℕ) : ℚ)
        = (batchLosses (fun p o b => (p + b, o)) (fun p b => p * b)
            (2 : ℚ) (0 : ℚ) [3, 4]).sum / (([3, 4] : List ℚ).length : ℚ))) :=
  ⟨by simp, train_returns_mean (fun p o b => (p + b, o)) (fun p b => p * b)
    (⟨2, true⟩ : Model ℚ) (0 : ℚ) [3, 4] [20, 6] (by simp)⟩

/-- C7: under merge_train_val the training dataframe holds exactly the rows
whose train or val column is true and the validation dataframe exactly the
rows whose test column is true; otherwise the training dataframe holds
exactly the rows whose train column is true and the validation dataframe
exactly the rows whose val column is true. -/
theorem split_train_val_membership {α : Type} (df : List (Row α)) (r : Row α) :
    (r ∈ (splitTrainVal true df).1 ↔ r ∈ df ∧ (r.train || r.val) = true) ∧
    (r ∈ (splitTrainVal true df).2 ↔ r ∈ df ∧ r.test = true) ∧
    (r ∈ (splitTrainVal false df).1 ↔ r ∈ df ∧ r.train = true) ∧
    (r ∈ (splitTrainVal false df).2 ↔ r ∈ df ∧ r.val = true) := by
  simp [splitTrainVal, List.mem_filter]

/-- C9: a validate call leaves the trainable parameters of the model
unchanged and, not receiving the optimizer at all, leaves the optimizer state
unchanged as well. -/
theorem validate_frame {α β γ : Type} (lossOf : α → β → ℚ) (m : Model α)
    (opt : γ) (bs : List β) :
    (validateWithOpt lossOf m opt bs).1.params = m.params ∧
    (validateWithOpt lossOf m opt bs).2.1 = opt ∧
    (validate lossOf m bs).1.params = m.params :=
  ⟨rfl, rfl, rfl⟩

/-- C10: on an empty batch sequence both the train and the validate function
fail with a ZeroDivisionError, while on any non-empty batch sequence both
return a value and the error branch is unreachable. -/
theorem nonempty_batches_precondition {α γ β : Type} (upd : α → γ → β → α × γ)
    (lossOf : α → β → ℚ) (m : Model α) (opt : γ) (bs : List β) (h : bs ≠ []) :
    (train upd lossOf m opt ([] : List β)).2.2 = Except.error "ZeroDivisionError" ∧
    (validate lossOf m ([] : List β)).2 = Except.error "ZeroDivisionError" ∧
    (∃ q, (train upd lossOf m opt bs).2.2 = Except.ok q) ∧
    (∃ q, (validate lossOf m bs).2 = Except.ok q) := by
  refine ⟨by simp [train], by simp [validate, meanLoss], ?_, ?_⟩
  · exact ⟨_, train_loss_eq upd lossOf m opt bs h⟩
  · exact ⟨_, meanLoss_of_ne_nil (bs.map (lossOf m.params))
      (by simpa [List.map_eq_nil_iff] using h)⟩

/-- C10 witness at a concrete non-empty run. -/
theorem nonempty_batches_precondition_witness :
    ([5] : List ℚ) ≠ [] ∧
    ((train (fun p o b => (p + b, o)) (fun p b => p * b) (⟨2, true⟩ : Model ℚ)
        (0 : ℚ) ([] : List ℚ)).2.2 = Except.error "ZeroDivisionError" ∧
    (validate (fun p b => p * b) (⟨2, true⟩ : Model ℚ) ([] : List ℚ)).2
        = Except.error "ZeroDivisionError" ∧
    (∃ q, (train (fun p o b => (p + b, o)) (fun p b => p * b)
        (⟨2, true⟩ : Model ℚ) (0 : ℚ) [5]).2.2 = Except.ok q) ∧
    (∃ q, (validate (fun p b => p * b) (⟨2, true⟩ : Model ℚ) [5]).2
        = Except.ok q)) :=
  ⟨by simp, nonempty_batches_precondition (fun p o b => (p + b, o))
    (fun p b => p * b) (⟨2, true⟩ : Model ℚ) (0 : ℚ) [5] (by simp)⟩

lemma trainLoopGo_cons_stop (p : ℕ) (lw : Bool) (v : ℚ) (rest : List ℚ)
    (best : Option ℚ) (pc : ℕ) (disk : Option ℚ)
    (h : p ≤ (if lt_best v best then 0 else pc + 1)) :
    trainLoopGo p lw (v :: rest) best pc disk
      = ((if lt_best v best then some v else best),
         [⟨v, lt_best v best, if lt_best v best then some v else best,
           if lt_best v best then 0 else pc + 1,
           if lt_best v best then some v else disk, false, true⟩]) := by
  simp [trainLoopGo, h]

lemma trainLoopGo_cons_continue (p : ℕ) (lw : Bool) (v : ℚ) (rest : List ℚ)
    (best : Option ℚ) (pc : ℕ) (disk : Option ℚ)
    (h : ¬ p ≤ (if lt_best v best then 0 else pc + 1)) :
    trainLoopGo p lw (v :: rest) best pc disk
      = ((trainLoopGo p lw rest (if lt_best v best then some v else best)
            (if lt_best v best then 0 else pc + 1)
            (if lt_best v best then some v else disk)).1,
         ⟨v, lt_best v best, if lt_best v best then some v else best,
           if lt_best v best then 0 else pc + 1,
           if lt_best v best then some v else disk, lw, false⟩
           :: (trainLoopGo p lw rest (if lt_best v best then some v else best)
                (if lt_best v best then 0 else pc + 1)
                (if lt_best v best then some v else disk)).2) := by
  simp [trainLoopGo, h]

lemma go_head_written (p : ℕ) (lw : Bool) (v : ℚ) (rest : List ℚ)
    (best : Option ℚ) (pc : ℕ) (disk : Option ℚ) :
    ((trainLoopGo p lw (v :: rest) best pc disk).2.head?.map EpochTrace.written)
      = some (lt_best v best) := by
  by_cases h : p ≤ (if lt_best v best then 0 else pc + 1)
  · rw [trainLoopGo_cons_stop p lw v rest best pc disk h]; rfl
  · rw [trainLoopGo_cons_continue p lw v rest best pc disk h]; rfl

lemma go_head_patience (p : ℕ) (lw : Bool) (v : ℚ) (rest : List ℚ)
    (best : Option ℚ) (pc : ℕ) (disk : Option ℚ) :
    ((trainLoopGo p lw (v :: rest) best pc disk).2.head?.map EpochTrace.patienceAfter)
      = some (if lt_best v best then 0 else pc + 1) := by
  by_cases h : p ≤ (if lt_best v best then 0 else pc + 1)
  · rw [trainLoopGo_cons_stop p lw v rest best pc disk h]; rfl
  · rw [trainLoopGo_cons_continue p lw v rest best pc disk h]; rfl

lemma go_head_stop (p : ℕ) (lw : Bool) (v : ℚ) (rest : List ℚ)
    (best : Option ℚ) (pc : ℕ) (disk : Option ℚ) :
    ((trainLoopGo p lw (v :: rest) best pc disk).2.head?.map EpochTrace.earlyStopped)
      = some (decide (p ≤ (if lt_best v best then 0 else pc + 1))) := by
  by_cases h : p ≤ (if lt_best v best then 0 else pc + 1)
  · rw [trainLoopGo_cons_stop p lw v rest best pc disk h]
    simp [h]
  · rw [trainLoopGo_cons_continue p lw v rest best pc disk h]
    simp [h]

lemma go_logged (p : ℕ) (lw : Bool) :
    ∀ (ls : List ℚ) (best : Option ℚ) (pc : ℕ) (disk : Option ℚ)
      (t : EpochTrace), t ∈ (trainLoopGo p lw ls best pc disk).2 →
      t.logged = (lw && !t.earlyStopped) := by
  intro ls
  induction ls with
  | nil => intro best pc disk t ht; simp [trainLoopGo] at ht
  | cons v rest ih =>
      intro best pc disk t ht
      by_cases h : p ≤ (if lt_best v best then 0 else pc + 1)
      · rw [trainLoopGo_cons_stop p lw v rest best pc disk h] at ht
        simp at ht
        subst ht
        simp
      · rw [trainLoopGo_cons_continue p lw v rest best pc disk h] at ht
        simp only [List.mem_cons] at ht
        rcases ht with rfl | ht
        · simp
        · exact ih _ _ _ t ht

lemma go_stop_iff (p : ℕ) (lw : Bool) :
    ∀ (ls : List ℚ) (best : Option ℚ) (pc : ℕ) (disk : Option ℚ)
      (t : EpochTrace), t ∈ (trainLoopGo p lw ls best pc disk).2 →
      t.earlyStopped = decide (p ≤ t.patienceAfter) := by
  intro ls
  induction ls with
  | nil => intro best pc disk t ht; simp [trainLoopGo] at ht
  | cons v rest ih =>
      intro best pc disk t ht
      by_cases h : p ≤ (if lt_best v best then 0 else pc + 1)
      · rw [trainLoopGo_cons_stop p lw v rest best pc disk h] at ht
        simp at ht
        subst ht
        simp [h]
      · rw [trainLoopGo_cons_continue p lw v rest best pc disk h] at ht
        simp only [List.mem_cons] at ht
        rcases ht with rfl | ht
        · simp [h]
        · exact ih _ _ _ t ht

lemma go_stop_patience (p : ℕ) (lw : Bool) :
    ∀ (ls : List ℚ) (best : Option ℚ) (pc : ℕ) (disk : Option ℚ),
      (pc < p ∨ (pc = 0 ∧ best = none)) →
      ∀ t ∈ (trainLoopGo p lw ls best pc disk).2,
        t.earlyStopped = true → t.patienceAfter = p := by
  intro ls
  induction ls with
  | nil => intro best pc disk _ t ht; simp [trainLoopGo] at ht
  | cons v rest ih =>
      intro best pc disk hinv t ht
      by_cases h : p ≤ (if lt_best v best then 0 else pc + 1)
      · rw [trainLoopGo_cons_stop p lw v rest best pc disk h] at ht
        simp at ht
        subst ht
        intro _
        cases himp : lt_best v best with
        | true =>
            rw [himp] at h
            simp at h ⊢
            omega
        | false =>
            have hb : best ≠ none := by
              intro hbn
              rw [hbn] at himp
              simp [lt_best] at himp
            have hpc : pc < p := by
              rcases hinv with h1 | ⟨_, h2⟩
              · exact h1
              · exact absurd h2 hb
            rw [himp] at h
            simp at h ⊢
            omega
      · rw [trainLoopGo_cons_continue p lw v rest best pc disk h] at ht
        simp only [List.mem_cons] at ht
        rcases ht with rfl | ht
        · intro hst
          simp at hst
        · refine ih _ _ _ ?_ t ht
          left
          omega

lemma go_dropLast (p : ℕ) (lw : Bool) :
    ∀ (ls : List ℚ) (best : Option ℚ) (pc : ℕ) (disk : Option ℚ)
      (t : EpochTrace), t ∈ (trainLoopGo p lw ls best pc disk).2.dropLast →
      t.earlyStopped = false := by
  intro ls
  induction ls with
  | nil => intro best pc disk t ht; simp [trainLoopGo] at ht
  | cons v rest ih =>
      intro best pc disk t ht
      by_cases h : p ≤ (if lt_best v best then 0 else pc + 1)
      · rw [trainLoopGo_cons_stop p lw v rest best pc disk h] at ht
        simp at ht
      · rw [trainLoopGo_cons_continue p lw v rest best pc disk h] at ht
        rcases hr : (trainLoopGo p lw rest (if lt_best v best then some v else best)
            (if lt_best v best then 0 else pc + 1)
            (if lt_best v best then some v else disk)).2 with _ | ⟨a, as⟩
        · rw [hr] at ht
          simp at ht
        · rw [hr] at ht
          rw [List.dropLast_cons₂] at ht
          simp only [List.mem_cons] at ht
          rcases ht with rfl | ht
          · rfl
          · have ht' : t ∈ (trainLoopGo p lw rest
                (if lt_best v best then some v else best)
                (if lt_best v best then 0 else pc + 1)
                (if lt_best v best then some v else disk)).2.dropLast := by
              rw [hr]
              exact ht
            exact ih _ _ _ t ht'

lemma go_disk_eq_best (p : ℕ) (lw : Bool) :
    ∀ (ls : List ℚ) (best : Option ℚ) (pc : ℕ) (disk : Option ℚ), best = disk →
      ∀ t ∈ (trainLoopGo p lw ls best pc disk).2, t.diskAfter = t.bestAfter := by
  intro ls
  induction ls with
  | nil => intro best pc disk _ t ht; simp [trainLoopGo] at ht
  | cons v rest ih =>
      intro best pc disk hbd t ht
      by_cases h : p ≤ (if lt_best v best then 0 else pc + 1)
      · rw [trainLoopGo_cons_stop p lw v rest best pc disk h] at ht
        simp at ht
        subst ht
        simp [hbd]
      · rw [trainLoopGo_cons_continue p lw v rest best pc disk h] at ht
        simp only [List.mem_cons] at ht
        rcases ht with rfl | ht
        · simp [hbd]
        · refine ih _ _ _ ?_ t ht
          simp [hbd]

lemma ominQ_none_right (a : Option ℚ) : ominQ a none = a := by
  cases a <;> rfl

lemma step_best_eq (v : ℚ) (best : Option ℚ) :
    (if lt_best v best then some v else best) = ominQ best (some v) := by
  cases best with
  | none => simp [lt_best, ominQ]
  | some b =>
      by_cases hv : v < b
      · simp [lt_best, hv, ominQ, min_eq_right (le_of_lt hv)]
      · simp [lt_best, hv, ominQ, min_eq_left (le_of_not_lt hv)]

lemma ominQ_assoc (a b c : Option ℚ) :
    ominQ (ominQ a b) c = ominQ a (ominQ b c) := by
  cases a <;> cases b <;> cases c <;> simp [ominQ, min_assoc]

lemma minLoss_cons (v : ℚ) (ls : List ℚ) :
    minLoss (v :: ls) = ominQ (some v) (minLoss ls) := rfl

lemma go_fst_min (p : ℕ) (lw : Bool) :
    ∀ (ls : List ℚ) (best : Option ℚ) (pc : ℕ) (disk : Option ℚ),
      (trainLoopGo p lw ls best pc disk).1
        = ominQ best (minLoss
            ((trainLoopGo p lw ls best pc disk).2.map EpochTrace.valLoss)) := by
  intro ls
  induction ls with
  | nil => intro best pc disk; simp [trainLoopGo, minLoss, ominQ_none_right]
  | cons v rest ih =>
      intro best pc disk
      by_cases h : p ≤ (if lt_best v best then 0 else pc + 1)
      · rw [trainLoopGo_cons_stop p lw v rest best pc disk h]
        simp [minLoss, ominQ_none_right, step_best_eq]
      · rw [trainLoopGo_cons_continue p lw v rest best pc disk h]
        simp only [List.map_cons, minLoss_cons]
        rw [ih, step_best_eq, ominQ_assoc]

lemma go_log_flag_core (p : ℕ) (a b : Bool) :
    ∀ (ls : List ℚ) (best : Option ℚ) (pc : ℕ) (disk : Option ℚ),
      (trainLoopGo p a ls best pc disk).1 = (trainLoopGo p b ls best pc disk).1 ∧
      (trainLoopGo p a ls best pc disk).2.map traceCore
        = (trainLoopGo p b ls best pc disk).2.map traceCore := by
  intro ls
  induction ls with
  | nil => intro best pc disk; exact ⟨rfl, rfl⟩
  | cons v rest ih =>
      intro best pc disk
      by_cases h : p ≤ (if lt_best v best then 0 else pc + 1)
      · rw [trainLoopGo_cons_stop p a v rest best pc disk h,
          trainLoopGo_cons_stop p b v rest best pc disk h]
        exact ⟨rfl, rfl⟩
      · rw [trainLoopGo_cons_continue p a v rest best pc disk h,
          trainLoopGo_cons_continue p b v rest best pc disk h]
        refine ⟨(ih _ _ _).1, ?_⟩
        rw [List.map_cons, List.map_cons, (ih _ _ _).2]
        rfl

/-- C1: in every epoch of a run the checkpoint is written exactly when the
validation loss of the epoch is strictly below best_val_loss, which for a
finite best means val_loss is strictly less than it, so never on a tie; and
after every executed epoch the checkpoint on disk carries exactly the best
validation loss observed so far in the run. -/
theorem checkpoint_policy (e p : ℕ) (lw : Bool) (f : ℕ → ℚ) (v w b : ℚ)
    (rest : List ℚ) (best : Option ℚ) (pc : ℕ) (disk : Option ℚ) :
    ((trainLoopGo p lw (v :: rest) best pc disk).2.head?.map EpochTrace.written)
      = some (lt_best v best) ∧
    lt_best v (some b) = decide (v < b) ∧
    lt_best w (some w) = false ∧
    ((train_loop e p lw f).2.map EpochTrace.diskAfter)
      = ((train_loop e p lw f).2.map EpochTrace.bestAfter) := by
  refine ⟨go_head_written p lw v rest best pc disk, rfl, by simp [lt_best], ?_⟩
  exact List.map_congr_left
    (fun t ht => go_disk_eq_best p lw ((List.range e).map f) none 0 none rfl t ht)

/-- C2: the patience counter starts at 0, an epoch resets it to 0 exactly
when its validation loss strictly improves on best_val_loss and increments it
by exactly 1 otherwise, the loop breaks exactly at the epochs whose counter
reaches the configured patience, such an epoch is never followed by another,
and at the break the counter equals the patience exactly; in the scenario
with five epochs, patience 2 and validation losses 0.5, 0.6, 0.7 the run
stops after the third epoch with best validation loss 0.5. -/
theorem patience_policy (e p : ℕ) (lw : Bool) (f : ℕ → ℚ) (v : ℚ)
    (rest : List ℚ) (best : Option ℚ) (pc : ℕ) (disk : Option ℚ) :
    train_loop e p lw f = trainLoopGo p lw ((List.range e).map f) none 0 none ∧
    ((trainLoopGo p lw (v :: rest) best pc disk).2.head?.map EpochTrace.patienceAfter)
      = some (if lt_best v best then 0 else pc + 1) ∧
    ((trainLoopGo p lw (v :: rest) best pc disk).2.head?.map EpochTrace.earlyStopped)
      = some (decide (p ≤ (if lt_best v best then 0 else pc + 1))) ∧
    ((train_loop e p lw f).2.map EpochTrace.earlyStopped)
      = ((train_loop e p lw f).2.map (fun t => decide (p ≤ t.patienceAfter))) ∧
    ((train_loop e p lw f).2.all
        (fun t => !t.earlyStopped || decide (t.patienceAfter = p))) = true ∧
    ((train_loop e p lw f).2.dropLast.all (fun t => !t.earlyStopped)) = true ∧
    (train_loop 5 2 true scenarioLosses).1 = some (Rat.divInt 1 2) ∧
    ((train_loop 5 2 true scenarioLosses).2.map
        (fun t => (t.patienceAfter, t.earlyStopped)))
      = [(0, false), (1, false), (2, true)] := by
  refine ⟨rfl, go_head_patience p lw v rest best pc disk,
    go_head_stop p lw v rest best pc disk, ?_, ?_, ?_, by decide, by decide⟩
  · exact List.map_congr_left
      (fun t ht => go_stop_iff p lw ((List.range e).map f) none 0 none t ht)
  · rw [List.all_eq_true]
    intro t ht
    have hstop := go_stop_patience p lw ((List.range e).map f) none 0 none
      (Or.inr ⟨rfl, rfl⟩) t ht
    cases hs : t.earlyStopped with
    | false => simp
    | true => simp [hstop hs]
  · rw [List.all_eq_true]
    intro t ht
    simp [go_dropLast p lw ((List.range e).map f) none 0 none t ht]

/-- C3: train_loop returns the minimum validation loss over the executed
epochs of the run, and when the epoch budget is 0 it returns float("inf"),
validation never having run. -/
theorem best_val_loss_is_min (e p : ℕ) (lw : Bool) (f : ℕ → ℚ) :
    (train_loop e p lw f).1
      = minLoss ((train_loop e p lw f).2.map EpochTrace.valLoss) ∧
    (train_loop 0 p lw f).1 = floatInf := by
  exact ⟨go_fst_min p lw ((List.range e).map f) none 0 none, rfl⟩

/-- C5 counterexample: in a run whose single epoch exhausts the epoch budget
without early stopping, the metrics of that terminal epoch are logged, so it
is false that no logging call occurs for the final epoch that exhausts the
epoch budget. -/
theorem budget_epoch_logged_counterexample :
    ¬ (∀ t ∈ (train_loop 1 10 true (fun _ => Rat.divInt 1 2)).2,
        t.earlyStopped = false → t.logged = false) := by decide

/-- C5 (amended): with logging enabled, metrics are logged on every executed
epoch except one that triggers the early-stop transition; in particular the
final epoch that exhausts the epoch budget is logged. -/
theorem logging_policy (e p : ℕ) (lw : Bool) (f : ℕ → ℚ) :
    ((train_loop e p lw f).2.map EpochTrace.logged)
      = ((train_loop e p lw f).2.map (fun t => lw && !t.earlyStopped)) ∧
    ((train_loop 1 10 true (fun _ => Rat.divInt 1 2)).2.map
        (fun t => (t.logged, t.earlyStopped))) = [(true, false)] := by
  refine ⟨?_, by decide⟩
  exact List.map_congr_left
    (fun t ht => go_logged p lw ((List.range e).map f) none 0 none t ht)

/-- C8: with log_wandb set to false no epoch calls the metrics sink, and the
run returns the same best validation loss and produces the same per-epoch
validation losses, checkpoint writes, patience counters and early-stop
behaviour as the identical run with logging enabled. -/
theorem log_wandb_noninterference (e p : ℕ) (f : ℕ → ℚ) :
    ((train_loop e p false f).2.map EpochTrace.logged)
      = List.replicate (train_loop e p false f).2.length false ∧
    (train_loop e p false f).1 = (train_loop e p true f).1 ∧
    ((train_loop e p false f).2.map traceCore)
      = ((train_loop e p true f).2.map traceCore) := by
  refine ⟨?_, (go_log_flag_core p false true ((List.range e).map f) none 0 none).1,
    (go_log_flag_core p false true ((List.range e).map f) none 0 none).2⟩
  have hlog : ((train_loop e p false f).2.map EpochTrace.logged)
      = ((train_loop e p false f).2.map (fun _ => false)) :=
    List.map_congr_left (fun t ht => by
      simpa using go_logged p false ((List.range e).map f) none 0 none t ht)
  rw [hlog, List.map_const']

end MLEnergy
